import Mathlib

/-!
Shallow embedding of the batch HTML-to-Word converter (src/1.py,
class HtmlToWordConverter) and proofs about its specified behaviour.

Conventions of the embedding:
* Python strings are Lean `String`; byte-level decoding is abstracted by
  oracles (`Option String` for a decode attempt that may raise, a
  `String → Bool` predicate for "this encoding strictly decodes the sample").
* The filesystem is abstracted as explicit listings / existence lists,
  treated case-sensitively (POSIX semantics).
* Python `try/except` blocks are translated to `Except` values plus an
  explicit handler, or to `Option` oracles at the raise sites.
* The float threshold 0.7 in `detect_encoding` is modelled as the exact
  rational 7/10 (the comparison is with a literal, so no rounding subtlety
  is lost for the comparisons the claims are about).
-/

/-- Substring test, the embedding of the Python `in` operator on strings
(`needle in hay`). -/
def substrOf (needle hay : String) : Bool :=
  decide (needle.data <:+: hay.data)

/-- Embedding of Python `str.lower`, done character by character. -/
def strLower (s : String) : String :=
  String.mk (s.data.map Char.toLower)

/-- Embedding of Python `str.endswith`. -/
def endsWithS (s post : String) : Bool :=
  post.data.isSuffixOf s.data

/-- Embedding of Python `str.startswith`. -/
def startsWithS (s pre : String) : Bool :=
  pre.data.isPrefixOf s.data

/-- Embedding of Python `str.strip()`: removes leading and trailing
whitespace. -/
def trimS (s : String) : String :=
  String.mk (((s.data.dropWhile Char.isWhitespace).reverse.dropWhile
    Char.isWhitespace).reverse)

/-! ### File discovery (process_directory, src/1.py lines 502-509)

`os.walk` over the working directory.  Subdirectories whose name ends in
`_files` or is one of `word`, `__pycache__`, `.git`, `logs` are pruned;
the pruning applies only to subdirectories, never to the root itself.
Every file whose lowercased name ends with `.html` or `.htm` counts. -/

/-- Embeds `file.lower().endswith(('.html', '.htm'))` (line 508). -/
def isHtmlName (f : String) : Bool :=
  endsWithS (strLower f) ".html" || endsWithS (strLower f) ".htm"

/-- Embeds the directory pruning of lines 504-505: a subdirectory is skipped
when its name ends in `_files` or is one of the fixed exclusions. -/
def excludedDir (d : String) : Bool :=
  endsWithS d "_files" || d == "word" || d == "__pycache__" || d == ".git" || d == "logs"

/-- Number of discovered HTML files among the plain files of one directory. -/
def countHtml (files : List String) : Nat :=
  (files.filter isHtmlName).length

/-- A directory tree: a name, the plain files directly inside, and the
subdirectories. -/
inductive DirTree : Type where
  | mk (name : String) (files : List String) (subs : List DirTree)

/-- Name of the directory at the root of the tree. -/
def DirTree.name : DirTree → String
  | .mk n _ _ => n

/-- Plain files directly inside the root of the tree. -/
def DirTree.files : DirTree → List String
  | .mk _ fs _ => fs

/-- Subdirectories of the root of the tree. -/
def DirTree.subs : DirTree → List DirTree
  | .mk _ _ s => s

mutual

/-- The value of `self.total_files` after `os.walk` has visited the tree:
HTML files in the current directory plus those of the non-pruned
subtrees (src/1.py lines 502-509). -/
def totalDiscovered : DirTree → Nat
  | .mk _ fs subs => countHtml fs + walkSubs subs

/-- Walks a list of subdirectories, skipping the pruned ones. -/
def walkSubs : List DirTree → Nat
  | [] => 0
  | t :: ts => (if excludedDir t.name then 0 else totalDiscovered t) + walkSubs ts

end

/-! ### Table conversion (convert_html_to_word, src/1.py lines 356-368)

`rows = element.find_all('tr')`; if non-empty, `max_cols` is the maximum
number of td/th cells over all rows; if positive, a `len(rows) x max_cols`
table is created (cells initially empty text) and cell (i, j) receives the
text of the j-th cell of row i when that row has one. -/

/-- Embeds `max(len(row.find_all(['td','th'])) for row in rows)`; the fold
starts at 0, which agrees with Python `max` on the non-empty lists the
guard allows through. -/
def maxCols (rows : List (List String)) : Nat :=
  rows.foldl (fun m r => max m r.length) 0

/-- Embeds the table branch: given the rows as lists of cell texts, returns
the grid of cell texts of the generated Word table, or none when no table
is generated (no rows, or no row has any cell).  A cell keeps the default
empty text when its row is too short, exactly as in the source where only
`j < len(cells)` positions are assigned. -/
def buildTable (rows : List (List String)) : Option (List (List String)) :=
  if rows.isEmpty then none
  else if 0 < maxCols rows then
    some (rows.map (fun r => (List.range (maxCols rows)).map (fun j => r.getD j "")))
  else none

/-! ### Encoding detection (detect_encoding, src/1.py lines 141-164)

The whole body is wrapped in a bare `try/except` returning `'utf-8'`.
Inside: chardet runs over a sample of at most 10000 bytes; when its
confidence exceeds 0.7 the lowercased detected name is returned, with
`gb2312` widened to `gb18030` (if chardet reported no encoding at all the
`.lower()` call raises and the handler yields `'utf-8'`).  Otherwise the
fixed list is scanned for the first encoding that strictly decodes the
sample, defaulting to `'utf-8'`. -/

/-- Result of `chardet.detect` on the byte sample: the reported encoding
(None is possible) and the confidence, a float modelled as an exact
rational. -/
structure ChardetInput : Type where
  encoding : Option String
  confidence : Rat

/-- Embeds the `for encoding in ['utf-8','gbk','gb18030','big5']` loop of
lines 155-160: first encoding whose strict decode of the sample succeeds,
then the final `return 'utf-8'` of line 162.  `decodes e` stands for
"`raw_data.decode(e)` does not raise". -/
def fallbackScan (decodes : String → Bool) : List String → String
  | [] => "utf-8"
  | e :: rest => if decodes e then e else fallbackScan decodes rest

/-- Embeds `detect_encoding` (lines 141-164).  `importOk = false` stands for
any exception before chardet produces a result (failed import, unreadable
file); the outer handler then returns `'utf-8'`. -/
def detect_encoding (importOk : Bool) (res : ChardetInput) (decodes : String → Bool) : String :=
  if importOk then
    if (7 : Rat) / 10 < res.confidence then
      match res.encoding with
      | some e => if strLower e == "gb2312" then "gb18030" else strLower e
      | none => "utf-8"
    else
      fallbackScan decodes ["utf-8", "gbk", "gb18030", "big5"]
  else "utf-8"

/-! ### Reading a file (read_html_file, src/1.py lines 166-203)

Strict UTF-8 first (stripping a leading BOM); on UnicodeDecodeError,
decode with the detected encoding (errors ignored, BOM stripped); on any
failure there, a ladder of legacy encodings with errors ignored; finally a
raw read decoded as UTF-8 with errors ignored.  The outer handler turns
any remaining exception into the empty string. -/

/-- Embeds `content[1:]` after the `startswith` test against the BOM
character U+FEFF (lines 173-174 and 183-184). -/
def stripBOM (s : String) : String :=
  if startsWithS s "\uFEFF" then String.mk (s.data.drop 1) else s

/-- Oracles for one run of `read_html_file` on one file.
`utf8Result` is the strict UTF-8 decode (`none` = UnicodeDecodeError);
`utf8IoErr` = the first `open` raised something other than a decode error,
which only the outer handler catches; `decodeIgnore e` is the text read
with encoding `e` and `errors='ignore'` (`none` = that attempt raised);
`finalRead` is the raw-bytes read decoded as UTF-8 ignoring errors
(`none` = even the raw open raised). -/
structure ReadModel : Type where
  utf8Result : Option String
  utf8IoErr : Bool
  detImportOk : Bool
  det : ChardetInput
  detDecodes : String → Bool
  decodeIgnore : String → Option String
  finalRead : Option String

/-- First successful lenient decode along the encoding ladder of line 189. -/
def firstDecode (decodeIgnore : String → Option String) : List String → Option String
  | [] => none
  | e :: rest =>
    match decodeIgnore e with
    | some s => some s
    | none => firstDecode decodeIgnore rest

/-- Embeds `read_html_file` (lines 166-203). -/
def read_html_file (m : ReadModel) : String :=
  if m.utf8IoErr then ""
  else
    match m.utf8Result with
    | some c => stripBOM c
    | none =>
      match m.decodeIgnore (detect_encoding m.detImportOk m.det m.detDecodes) with
      | some c => stripBOM c
      | none =>
        match firstDecode m.decodeIgnore ["gbk", "gb18030", "big5", "utf-16", "latin-1"] with
        | some c => c
        | none =>
          match m.finalRead with
          | some c => c
          | none => ""

/-! ### Asset folder resolution (find_associated_files_folder, lines 205-232)

The directory containing the HTML file is modelled as an explicit listing
of entries (name and is-directory flag); `os.path.exists` /
`os.path.isdir` on a candidate name are membership in that listing with
the flag set (case-sensitive, POSIX).  The function returns the name of
the found folder (the source returns the joined path of that same name). -/

/-- One entry of `os.listdir` on the directory of the HTML file. -/
structure DirEntry : Type where
  name : String
  isDir : Bool
deriving DecidableEq

/-- Embeds the `possible_names` list of lines 210-218, built from the HTML
file base name. -/
def possibleNames (htmlName : String) : List String :=
  [htmlName ++ "_files", htmlName ++ ".files", htmlName,
   "files", "images", "image", "img"]

/-- Embeds `os.path.exists(folder_path) and os.path.isdir(folder_path)` for
a candidate name against the listing of the directory. -/
def existsDir (listing : List DirEntry) (n : String) : Bool :=
  listing.any (fun e => e.name == n && e.isDir)

/-- Embeds the condition of line 229 on one listing entry:
`html_name in item.lower() and ('file' in item.lower() or 'image' in item.lower())`.
Note the base name itself is NOT lowercased by the source. -/
def fuzzyMatch (htmlName : String) (e : DirEntry) : Bool :=
  e.isDir && (substrOf htmlName (strLower e.name) &&
    (substrOf "file" (strLower e.name) || substrOf "image" (strLower e.name)))

/-- Embeds `find_associated_files_folder` (lines 205-232): first existing
directory among the conventional names, else the first listing entry
passing `fuzzyMatch`, else none. -/
def find_associated_files_folder (htmlName : String) (listing : List DirEntry) : Option String :=
  match (possibleNames htmlName).find? (existsDir listing) with
  | some n => some n
  | none => ((listing.find? (fuzzyMatch htmlName)).map DirEntry.name)

/-- Modelled from the spec words "performs a case-insensitive search":
identical to the source function except that the base name is also
lowercased in the fuzzy comparison, so the comparison is fully
case-insensitive.  Used only to compare against the source behaviour. -/
def find_folder_spec (htmlName : String) (listing : List DirEntry) : Option String :=
  match (possibleNames htmlName).find? (existsDir listing) with
  | some n => some n
  | none => ((listing.find? (fuzzyMatch (strLower htmlName))).map DirEntry.name)

/-! ### Image insertion (_insert_image, src/1.py lines 405-478)

The filesystem around the HTML file is abstracted as a list of existing
paths plus the (root, file) pairs that `os.walk` of the asset folder
enumerates.  Path joining is POSIX joining of relative components.  The
effect on the document is the list of contents added: embedded pictures
and text runs; empty runs and empty centering paragraphs carry no content
and are not modelled. -/

/-- POSIX join of a directory and a relative component (`os.path.join`). -/
def pjoin (a b : String) : String := a ++ "/" ++ b

/-- Embeds `src.split('?')[0].split('#')[0]` (line 415). -/
def cleanSrc (s : String) : String :=
  String.mk ((s.data.takeWhile (fun ch => ch != '?')).takeWhile (fun ch => ch != '#'))

/-- Embeds `os.path.basename` on a POSIX path: the part after the last
slash (line 416). -/
def basename (p : String) : String :=
  String.mk ((p.data.reverse.takeWhile (fun ch => ch != '/')).reverse)

/-- The filesystem visible to `_insert_image`: the set of existing paths,
and the (root, filename) pairs produced by `os.walk(files_folder)`. -/
structure ImgFs : Type where
  existsPath : List String
  walkPairs : List (String × String)
deriving DecidableEq

/-- One `<img>` element to insert, with the context `_insert_image` uses:
the src attribute (empty when absent, line 410), the alt attribute (none
when absent, lines 464 and 470), the asset folder resolved for the file,
the directory of the HTML file, the filesystem, and whether
`run.add_picture` raises on the located file. -/
structure ImgJob : Type where
  src : String
  alt : Option String
  filesFolder : Option String
  htmlDir : String
  fsx : ImgFs
  embedFails : Bool
deriving DecidableEq

/-- Embeds the image search of lines 421-447: candidate paths inside the
asset folder (direct joins, then case-insensitive walk hits), first one
that exists; otherwise the path relative to the HTML file when it
exists; otherwise none. -/
def findImagePath (filesFolder : Option String) (fsx : ImgFs)
    (htmlDir imgName cleanS : String) : Option String :=
  let fromFolder :=
    match filesFolder with
    | some ff =>
      if fsx.existsPath.contains ff then
        let walkHits := (fsx.walkPairs.filter
          (fun rc => rc.2 == imgName || strLower rc.2 == strLower imgName)).map
          (fun rc => pjoin rc.1 rc.2)
        (pjoin ff imgName :: pjoin ff cleanS :: walkHits).find?
          (fun p => fsx.existsPath.contains p)
      else none
    | none => none
  match fromFolder with
  | some p => some p
  | none =>
    if fsx.existsPath.contains (pjoin htmlDir cleanS) then some (pjoin htmlDir cleanS)
    else none

/-- One piece of content `_insert_image` adds to the document: an embedded
picture or a run of plain text. -/
inductive ImgOut : Type where
  | pic (path : String)
  | txt (s : String)
deriving DecidableEq

/-- The alt text used for placeholders: the alt attribute, defaulting to
the image file name (`img_element.get('alt', img_name)`). -/
def altTextOf (j : ImgJob) : String :=
  j.alt.getD (basename (cleanSrc j.src))

/-- Embeds `_insert_image` (lines 405-478) as the list of contents added to
the document.  Early returns for empty src, data URLs and empty basename
add nothing; a located image is embedded unless `add_picture` raises, in
which case the inner handler adds the bracketed placeholder; a missing
image adds the bracketed not-found placeholder.  The outer handler means
the function never propagates an exception, which the embedding reflects
by being a total function into plain lists. -/
def insert_image (j : ImgJob) : List ImgOut :=
  if j.src == "" || startsWithS j.src "data:" then []
  else
    let cs := cleanSrc j.src
    let imgName := basename cs
    if imgName == "" then []
    else
      match findImagePath j.filesFolder j.fsx j.htmlDir imgName cs with
      | some p =>
        if j.embedFails then [ImgOut.txt ("[图片: " ++ altTextOf j ++ "]")]
        else [ImgOut.pic p]
      | none => [ImgOut.txt ("[图片未找到: " ++ altTextOf j ++ "]")]

/-! ### Paragraph handling (convert_html_to_word, src/1.py lines 298-328)

A `<p>` element with non-empty stripped text gets a fresh paragraph; its
direct children are scanned one level deep; Python `for ... else` runs the
`else` body when the loop finished without `break`, and this loop contains
no `break`, so the `else` body always runs.  That body reads the variable
`text`, bound at line 300 to the paragraph's full stripped text but
REBOUND inside the loop by the string-child branch of line 323
(`text = str(child).strip()`); so the final `para.add_run(text)` appends
the full stripped text only when no string child occurred, and otherwise
the stripped text of the last string child.  The loop state is therefore
a pair: the contents added so far, and the current value of `text`. -/

/-- A text run of the Word paragraph with the formatting flags the source
can set (the link branch sets blue color plus underline; it is recorded
with the `link` flag). -/
structure Run : Type where
  text : String
  bold : Bool
  italic : Bool
  underline : Bool
  link : Bool
deriving DecidableEq

/-- A run with no formatting (`para.add_run(text)`). -/
def plainRun (s : String) : Run :=
  ⟨s, false, false, false, false⟩

/-- One piece of paragraph content: a run or an inline picture. -/
inductive ParaItem : Type where
  | run (r : Run)
  | pic (path : String)
deriving DecidableEq

/-- One direct child of the `<p>` element as the loop of lines 305-325
distinguishes them.  For the formatting tags the constructor carries
`child.get_text(strip=True)`; for a string child it carries the raw
string; `other` is any other element, for which the loop adds nothing. -/
inductive PChild : Type where
  | img (j : ImgJob)
  | bold (t : String)
  | italic (t : String)
  | underline (t : String)
  | link (t : String)
  | text (s : String)
  | other
deriving DecidableEq

/-- Paragraph content added for one child (lines 306-325).  The formatting
branches add their run unconditionally, even for empty text; a string
child adds its stripped text only when non-empty. -/
def childItems : PChild → List ParaItem
  | .img j => (insert_image j).map
      (fun o => match o with
        | .txt s => ParaItem.run (plainRun s)
        | .pic p => ParaItem.pic p)
  | .bold t => [ParaItem.run ⟨t, true, false, false, false⟩]
  | .italic t => [ParaItem.run ⟨t, false, true, false, false⟩]
  | .underline t => [ParaItem.run ⟨t, false, false, true, false⟩]
  | .link t => [ParaItem.run ⟨t, false, false, true, true⟩]
  | .text s => if trimS s == "" then [] else [ParaItem.run (plainRun (trimS s))]
  | .other => []

/-- The effect of one child on the `text` variable: the string-child branch
of line 323 rebinds it to the stripped child string; every other branch
leaves it unchanged. -/
def textBind (t : String) : PChild → String
  | PChild.text s => trimS s
  | _ => t

/-- One iteration of the child loop (lines 305-325): append the contents of
this child and update the `text` variable. -/
def pLoopStep (st : List ParaItem × String) (c : PChild) : List ParaItem × String :=
  (st.1 ++ childItems c, textBind st.2 c)

/-- The value of the `text` variable after the child loop: the paragraph's
full stripped text unless a string child rebound it at line 323. -/
def pFinalText (stripped : String) (children : List PChild) : String :=
  children.foldl textBind stripped

/-- Embeds the `<p>` branch (lines 298-328): nothing when the stripped text
is empty; otherwise the child loop runs with its `text` rebinding, and —
the loop having no `break`, so Python always executes the `else` body —
one final plain run holding the current value of `text` is appended. -/
def pHandler (stripped : String) (children : List PChild) : List ParaItem :=
  if stripped == "" then []
  else
    let st := children.foldl pLoopStep ([], stripped)
    st.1 ++ [ParaItem.run (plainRun st.2)]

/-! ### One file conversion and the run loop
(convert_html_to_word lines 234-403, process_directory lines 480-539)

`convert_html_to_word` returns False for empty content, False through the
outer handler when any exception escapes the inner guards, and otherwise
the result of the save verification `exists and size > 1024`.  Exceptions
raised inside `_insert_image` never escape it (its own handler), so the
flag for an escaping exception is separate from the image jobs. -/

/-- Inputs that decide one call of `convert_html_to_word`: the text that
`read_html_file` returned, the image elements processed along the way,
whether an exception escapes the inner guards (parsing, styles, save...),
and the state of the saved file after `doc.save` — `none` when
`os.path.exists(docx_path)` is false, otherwise its size in bytes. -/
structure ConvFile : Type where
  content : String
  imgs : List ImgJob
  otherExc : Bool
  fileSize : Option Nat
deriving DecidableEq

/-- Embeds `not html_content or not html_content.strip()` (line 246). -/
def contentEmpty (c : String) : Bool :=
  c == "" || trimS c == ""

/-- Embeds the verification of line 393:
`os.path.exists(docx_path) and os.path.getsize(docx_path) > 1024`. -/
def sizeOk : Option Nat → Bool
  | some n => decide (1024 < n)
  | none => false

/-- The body of `convert_html_to_word` inside its `try` (lines 236-398):
returns the boolean result, or an error when an exception escapes to the
handler of line 400. -/
def convert_body (m : ConvFile) : Except Unit Bool :=
  if contentEmpty m.content then Except.ok false
  else if m.otherExc then Except.error ()
  else Except.ok (sizeOk m.fileSize)

/-- Embeds `convert_html_to_word` (lines 234-403): the `except Exception`
handler of line 400 turns any escaping exception into False. -/
def convert_outcome (m : ConvFile) : Bool :=
  match convert_body m with
  | Except.ok b => b
  | Except.error _ => false

/-- All image-derived contents of the document built for one file. -/
def docImageAdditions (m : ConvFile) : List ImgOut :=
  (m.imgs.map insert_image).flatten

/-- One discovered HTML file in the run: its path and the inputs of its
conversion. -/
structure FileJob : Type where
  path : String
  conv : ConvFile
deriving DecidableEq

/-- The run statistics of the converter object (lines 33-35). -/
structure RunStats : Type where
  total : Nat
  success : Nat
  failed : List String
deriving DecidableEq

/-- The statistics at the start of the run. -/
def initStats : RunStats :=
  ⟨0, 0, []⟩

/-- Embeds the loop body of lines 507-537 for one discovered file:
`total_files += 1`, then on success `success_files += 1`, otherwise
`failed_files.append(html_path)`. -/
def processFile (s : RunStats) (f : FileJob) : RunStats :=
  if convert_outcome f.conv then ⟨s.total + 1, s.success + 1, s.failed⟩
  else ⟨s.total + 1, s.success, s.failed ++ [f.path]⟩

/-- Embeds `process_directory` over the discovered files in walk order. -/
def processFiles (p : List FileJob) : RunStats :=
  p.foldl processFile initStats

/-! ## Theorems -/

theorem le_foldlMax_init (l : List Nat) : ∀ a : Nat, a ≤ l.foldl max a := by
  induction l with
  | nil => intro a; exact Nat.le_refl a
  | cons b t ih =>
    intro a
    exact Nat.le_trans (Nat.le_max_left a b) (ih (max a b))

theorem le_foldlMax_of_mem (l : List Nat) : ∀ a x : Nat, x ∈ l → x ≤ l.foldl max a := by
  induction l with
  | nil => intro a x hx; cases hx
  | cons b t ih =>
    intro a x hx
    rcases List.mem_cons.mp hx with h | h
    · subst h
      exact Nat.le_trans (Nat.le_max_right a x) (le_foldlMax_init t (max a x))
    · exact ih (max a b) x h

theorem foldlMax_mem_cons (l : List Nat) : ∀ a : Nat, l.foldl max a ∈ a :: l := by
  induction l with
  | nil => intro a; simp [List.foldl]
  | cons b t ih =>
    intro a
    have h1 : (b :: t).foldl max a = t.foldl max (max a b) := rfl
    rw [h1]
    rcases List.mem_cons.mp (ih (max a b)) with h | h
    · rcases max_choice a b with hm | hm
      · exact List.mem_cons.mpr (Or.inl (h.trans hm))
      · exact List.mem_cons.mpr (Or.inr (List.mem_cons.mpr (Or.inl (h.trans hm))))
    · exact List.mem_cons.mpr (Or.inr (List.mem_cons.mpr (Or.inr h)))

theorem maxCols_eq_foldl_map (rows : List (List String)) :
    maxCols rows = (rows.map List.length).foldl max 0 := by
  rw [maxCols, List.foldl_map]

theorem length_le_maxCols (rows : List (List String)) :
    ∀ r ∈ rows, r.length ≤ maxCols rows := by
  intro r hr
  rw [maxCols_eq_foldl_map]
  exact le_foldlMax_of_mem _ 0 r.length (List.mem_map_of_mem List.length hr)

theorem maxCols_attained (rows : List (List String)) :
    maxCols rows ∈ (rows.map List.length) ∨ maxCols rows = 0 := by
  rw [maxCols_eq_foldl_map]
  rcases List.mem_cons.mp (foldlMax_mem_cons (rows.map List.length) 0) with h | h
  · exact Or.inr h
  · exact Or.inl h

/-- Claim C2: for any input folder containing N files with extension .html
or .htm (case-insensitive) and M files with other extensions, the total
discovered count equals N. -/
theorem C2_total_discovered (dirname : String) (fs : List String) (N M : Nat)
    (hN : (fs.filter isHtmlName).length = N)
    (hM : (fs.filter (fun f => !isHtmlName f)).length = M) :
    totalDiscovered (DirTree.mk dirname fs []) = N := by
  have h1 : totalDiscovered (DirTree.mk dirname fs []) = countHtml fs + walkSubs [] := rfl
  have h2 : walkSubs ([] : List DirTree) = 0 := rfl
  rw [h1, h2, countHtml, hN, Nat.add_zero]

/-- Witness for C2 at a concrete folder with two matching files (one with
uppercase extension) and one non-matching file. -/
theorem C2_total_discovered_witness :
    totalDiscovered (DirTree.mk "root" ["a.html", "B.HTM", "c.txt"] []) = 2 :=
  C2_total_discovered "root" ["a.html", "B.HTM", "c.txt"] 2 1 (by decide) (by decide)

/-- Claim C3: an HTML table whose rows have unequal cell counts yields a
table with exactly one row per tr, whose column count is the maximum
number of cells over all rows (attained by some row and bounding all of
them), every generated row having that width; a cell whose source row is
too short holds the empty text, and an in-range cell holds the text of
the corresponding source cell. -/
theorem C3_table_shape (rows : List (List String))
    (h : ∃ r₁ ∈ rows, ∃ r₂ ∈ rows, r₁.length ≠ r₂.length) :
    ∃ grid, buildTable rows = some grid ∧
      grid.length = rows.length ∧
      (∀ g ∈ grid, g.length = maxCols rows) ∧
      (∀ r ∈ rows, r.length ≤ maxCols rows) ∧
      (∃ r ∈ rows, r.length = maxCols rows) ∧
      (∀ i (hi : i < grid.length) j (hj : j < (grid.get ⟨i, hi⟩).length),
        (rows.getD i []).length ≤ j → (grid.get ⟨i, hi⟩).get ⟨j, hj⟩ = "") ∧
      (∀ i (hi : i < grid.length) j (hj : j < (grid.get ⟨i, hi⟩).length),
        (grid.get ⟨i, hi⟩).get ⟨j, hj⟩ = (rows.getD i []).getD j "") := by
  obtain ⟨r₁, hr₁, r₂, hr₂, hne⟩ := h
  have hnil : rows ≠ [] := by
    intro hc
    subst hc
    cases hr₁
  have hpos : 0 < maxCols rows := by
    rcases Nat.eq_zero_or_pos r₁.length with h0 | h0
    · have h2 : 0 < r₂.length := by
        rcases Nat.eq_zero_or_pos r₂.length with h0b | h0b
        · exact absurd (h0.trans h0b.symm) hne
        · exact h0b
      exact Nat.lt_of_lt_of_le h2 (length_le_maxCols rows r₂ hr₂)
    · exact Nat.lt_of_lt_of_le h0 (length_le_maxCols rows r₁ hr₁)
  have hemp : rows.isEmpty = false := by
    cases rows with
    | nil => exact absurd rfl hnil
    | cons a t => rfl
  refine ⟨rows.map (fun r => (List.range (maxCols rows)).map (fun j => r.getD j "")),
    ?_, ?_, ?_, ?_, ?_, ?_, ?_⟩
  · rw [buildTable, hemp]
    simp only [Bool.false_eq_true, if_false, if_pos hpos]
  · simp
  · intro g hg
    obtain ⟨r, _, hrg⟩ := List.mem_map.mp hg
    rw [← hrg]
    simp
  · exact length_le_maxCols rows
  · rcases maxCols_attained rows with hm | hm
    · obtain ⟨r, hr, hrl⟩ := List.mem_map.mp hm
      exact ⟨r, hr, hrl⟩
    · exact ⟨r₁, hr₁, Nat.le_antisymm (length_le_maxCols rows r₁ hr₁) (hm ▸ Nat.zero_le _)⟩
  · intro i hi j hj hshort
    have hi2 : i < rows.length := by simpa using hi
    simp only [List.get_eq_getElem, List.getElem_map, List.getElem_range]
    apply List.getD_eq_default
    rw [List.getD_eq_getElem rows [] hi2] at hshort
    exact hshort
  · intro i hi j hj
    have hi2 : i < rows.length := by simpa using hi
    simp only [List.get_eq_getElem, List.getElem_map, List.getElem_range]
    rw [List.getD_eq_getElem rows [] hi2]

/-- Witness for C3 at a concrete table with rows of 2 and 1 cells. -/
theorem C3_table_shape_witness :
    (∃ r₁ ∈ [["a", "b"], ["c"]], ∃ r₂ ∈ [["a", "b"], ["c"]],
      List.length r₁ ≠ List.length r₂) ∧
    ∃ grid, buildTable [["a", "b"], ["c"]] = some grid ∧
      grid.length = 2 ∧ (∀ g ∈ grid, g.length = maxCols [["a", "b"], ["c"]]) := by
  have h : ∃ r₁ ∈ [["a", "b"], ["c"]], ∃ r₂ ∈ [["a", "b"], ["c"]],
      List.length r₁ ≠ List.length r₂ := by
    refine ⟨["a", "b"], by decide, ["c"], by decide, by decide⟩
  obtain ⟨grid, h1, h2, h3, -, -, -, -⟩ := C3_table_shape [["a", "b"], ["c"]] h
  exact ⟨h, grid, h1, h2, h3⟩

theorem processFiles_foldl (p : List FileJob) : ∀ s : RunStats,
    (p.foldl processFile s).total = s.total + p.length ∧
    (p.foldl processFile s).success
      = s.success + (p.filter (fun f => convert_outcome f.conv)).length ∧
    (p.foldl processFile s).failed
      = s.failed ++ (p.filter (fun f => !convert_outcome f.conv)).map FileJob.path := by
  induction p with
  | nil => intro s; simp
  | cons f t ih =>
    intro s
    obtain ⟨iht, ihs, ihf⟩ := ih (processFile s f)
    rw [List.foldl_cons] at *
    by_cases hc : convert_outcome f.conv
    · have hpf : processFile s f = ⟨s.total + 1, s.success + 1, s.failed⟩ := by
        rw [processFile, if_pos hc]
      refine ⟨?_, ?_, ?_⟩
      · rw [iht, hpf]
        simp [Nat.add_assoc, Nat.add_comm 1]
      · rw [ihs, hpf]
        simp only [List.filter_cons, hc, if_pos, List.length_cons]
        omega
      · rw [ihf, hpf]
        simp [List.filter_cons, hc]
    · have hc2 : convert_outcome f.conv = false := by
        exact Bool.not_eq_true _ ▸ (by simpa using hc)
      have hpf : processFile s f = ⟨s.total + 1, s.success, s.failed ++ [f.path]⟩ := by
        rw [processFile, hc2]
        simp
      refine ⟨?_, ?_, ?_⟩
      · rw [iht, hpf]
        simp [Nat.add_assoc, Nat.add_comm 1]
      · rw [ihs, hpf]
        simp [List.filter_cons, hc2]
      · rw [ihf, hpf]
        simp [List.filter_cons, hc2]

/-- Claim C1: the run visits every discovered file (no abort), an exception
escaping one conversion makes that conversion report failure instead of
propagating, each failed file path enters the failure list exactly once
(its filter characterization, and count one when the discovered paths are
distinct), and after processing any list of files
total = success + number of failures. -/
theorem C1_run_invariant (p : List FileJob) :
    (processFiles p).total = p.length ∧
    (processFiles p).total = (processFiles p).success + (processFiles p).failed.length ∧
    (processFiles p).failed = (p.filter (fun f => !convert_outcome f.conv)).map FileJob.path ∧
    (∀ f ∈ p, convert_body f.conv = Except.error () → convert_outcome f.conv = false) ∧
    ((p.map FileJob.path).Nodup →
      ∀ f ∈ p, convert_outcome f.conv = false →
        (processFiles p).failed.count f.path = 1) := by
  obtain ⟨ht, hs, hf⟩ := processFiles_foldl p initStats
  rw [processFiles]
  have ht0 : (p.foldl processFile initStats).total = p.length := by
    rw [ht]; simp [initStats]
  have hs0 : (p.foldl processFile initStats).success
      = (p.filter (fun f => convert_outcome f.conv)).length := by
    rw [hs]; simp [initStats]
  have hf0 : (p.foldl processFile initStats).failed
      = (p.filter (fun f => !convert_outcome f.conv)).map FileJob.path := by
    rw [hf]; simp [initStats]
  refine ⟨ht0, ?_, hf0, ?_, ?_⟩
  · rw [ht0, hs0, hf0, List.length_map]
    exact List.length_eq_length_filter_add (fun g : FileJob => convert_outcome g.conv)
  · intro f _ he
    rw [convert_outcome, he]
  · intro hnd f hfp hfail
    rw [hf0]
    have hmem : f ∈ p.filter (fun f => !convert_outcome f.conv) := by
      rw [List.mem_filter]
      exact ⟨hfp, by rw [hfail]; rfl⟩
    have hge : 1 ≤ ((p.filter (fun f => !convert_outcome f.conv)).map FileJob.path).count f.path := by
      rw [Nat.succ_le_iff]
      exact List.count_pos_iff.mpr (List.mem_map_of_mem FileJob.path hmem)
    have hsub : ((p.filter (fun f => !convert_outcome f.conv)).map FileJob.path).Sublist
        (p.map FileJob.path) :=
      List.Sublist.map FileJob.path (List.filter_sublist p)
    have hle : ((p.filter (fun f => !convert_outcome f.conv)).map FileJob.path).count f.path ≤ 1 := by
      refine Nat.le_trans (hsub.count_le f.path) ?_
      exact List.nodup_iff_count_le_one.mp hnd f.path
    exact Nat.le_antisymm hle hge

/-- Witness for C1 at a run of two files, the second of which raises during
conversion: its path is counted exactly once in the failure list. -/
theorem C1_run_invariant_witness :
    (processFiles [⟨"a.html", ⟨"hello", [], false, some 2000⟩⟩,
      ⟨"b.html", ⟨"hello", [], true, some 2000⟩⟩]).failed.count "b.html" = 1 := by
  have h := C1_run_invariant [⟨"a.html", ⟨"hello", [], false, some 2000⟩⟩,
    ⟨"b.html", ⟨"hello", [], true, some 2000⟩⟩]
  exact h.2.2.2.2 (by decide) ⟨"b.html", ⟨"hello", [], true, some 2000⟩⟩
    (by decide) (by decide)

/-- Claim C5: once the conversion has reached and completed the save (the
content was non-empty and no exception escaped), success is reported if
and only if the saved file exists with size above 1024 bytes; and
whenever the file is missing or not larger than 1024 bytes the
conversion is reported as failed. -/
theorem C5_success_iff (m : ConvFile) :
    ((contentEmpty m.content = false ∧ m.otherExc = false) →
      (convert_outcome m = true ↔ sizeOk m.fileSize = true)) ∧
    (sizeOk m.fileSize = false → convert_outcome m = false) := by
  constructor
  · rintro ⟨h1, h2⟩
    simp [convert_outcome, convert_body, h1, h2]
  · intro hsz
    by_cases h1 : contentEmpty m.content <;> by_cases h2 : m.otherExc <;>
      simp [convert_outcome, convert_body, h1, h2, hsz]

/-- Witness for C5 at a saved file of 2000 bytes with non-empty content and
no escaping exception: the conversion is reported successful. -/
theorem C5_success_iff_witness :
    convert_outcome ⟨"hello", [], false, some 2000⟩ = true := by
  have h := (C5_success_iff ⟨"hello", [], false, some 2000⟩).1 ⟨by decide, rfl⟩
  exact h.mpr (by decide)

theorem substrOf_bracketed (pre alt post : String) :
    substrOf alt (pre ++ alt ++ post) = true := by
  apply decide_eq_true
  have h : (pre ++ alt ++ post).data = pre.data ++ alt.data ++ post.data := by
    simp [String.data_append]
  rw [h]
  exact List.infix_append _ _ _

/-- Claim C10: an img element whose src is empty, is a data URL, or whose
cleaned path has an empty basename makes _insert_image return early with
the document untouched: no picture, no placeholder. -/
theorem C10_img_early_return (j : ImgJob)
    (h : j.src = "" ∨ startsWithS j.src "data:" = true ∨ basename (cleanSrc j.src) = "") :
    insert_image j = [] := by
  rw [insert_image]
  rcases h with h | h | h
  · simp [h]
  · simp [h]
  · by_cases h1 : (j.src == "" || startsWithS j.src "data:") = true
    · simp [h1]
    · simp only [Bool.not_eq_true] at h1
      simp [h1, h]

/-- Witness for C10 at a data URL image. -/
theorem C10_img_early_return_witness :
    insert_image ⟨"data:x", none, none, "d", ⟨[], []⟩, false⟩ = [] :=
  C10_img_early_return ⟨"data:x", none, none, "d", ⟨[], []⟩, false⟩
    (Or.inr (Or.inl (by decide)))

/-- Claim C4: an img element past the early guards whose file cannot be
located, or whose embedding raises, contributes exactly one bracketed
placeholder text built around the alt text (or image name) to the
document, _insert_image returns normally, and the reported outcome of the
file conversion is the same as if the image were not there at all. -/
theorem C4_img_placeholder (j : ImgJob) (m : ConvFile)
    (hmem : j ∈ m.imgs)
    (h1 : j.src ≠ "")
    (h2 : startsWithS j.src "data:" = false)
    (h3 : basename (cleanSrc j.src) ≠ "")
    (h4 : findImagePath j.filesFolder j.fsx j.htmlDir (basename (cleanSrc j.src))
        (cleanSrc j.src) = none ∨ j.embedFails = true) :
    (∃ mid, insert_image j = [ImgOut.txt ("[" ++ mid ++ "]")] ∧
      substrOf (altTextOf j) ("[" ++ mid ++ "]") = true ∧
      ImgOut.txt ("[" ++ mid ++ "]") ∈ docImageAdditions m) ∧
    convert_outcome m = convert_outcome ⟨m.content, [], m.otherExc, m.fileSize⟩ := by
  have hsrc : (j.src == "" || startsWithS j.src "data:") = false := by
    simp [h1, h2]
  have hname : (basename (cleanSrc j.src) == "") = false := by
    simp [h3]
  have hins : ∃ mid, insert_image j = [ImgOut.txt ("[" ++ mid ++ "]")] ∧
      substrOf (altTextOf j) ("[" ++ mid ++ "]") = true := by
    rcases h4 with h4 | h4
    · refine ⟨"图片未找到: " ++ altTextOf j, ?_, ?_⟩
      · rw [insert_image]
        simp only [hsrc, Bool.false_eq_true, if_false, hname, h4]
        have hstr : "[图片未找到: " ++ altTextOf j ++ "]"
            = "[" ++ ("图片未找到: " ++ altTextOf j) ++ "]" := by
          rw [← String.append_assoc]
          rfl
        rw [hstr]
      · rw [← String.append_assoc]
        exact substrOf_bracketed ("[" ++ "图片未找到: ") (altTextOf j) "]"
    · cases hloc : findImagePath j.filesFolder j.fsx j.htmlDir (basename (cleanSrc j.src))
          (cleanSrc j.src) with
      | none =>
        refine ⟨"图片未找到: " ++ altTextOf j, ?_, ?_⟩
        · rw [insert_image]
          simp only [hsrc, Bool.false_eq_true, if_false, hname, hloc]
          have hstr : "[图片未找到: " ++ altTextOf j ++ "]"
              = "[" ++ ("图片未找到: " ++ altTextOf j) ++ "]" := by
            rw [← String.append_assoc]
            rfl
          rw [hstr]
        · rw [← String.append_assoc]
          exact substrOf_bracketed ("[" ++ "图片未找到: ") (altTextOf j) "]"
      | some p =>
        refine ⟨"图片: " ++ altTextOf j, ?_, ?_⟩
        · rw [insert_image]
          simp only [hsrc, Bool.false_eq_true, if_false, hname, hloc, h4]
          have hstr : "[图片: " ++ altTextOf j ++ "]"
              = "[" ++ ("图片: " ++ altTextOf j) ++ "]" := by
            rw [← String.append_assoc]
            rfl
          rw [hstr]
          simp
        · rw [← String.append_assoc]
          exact substrOf_bracketed ("[" ++ "图片: ") (altTextOf j) "]"
  obtain ⟨mid, hmid, hsub⟩ := hins
  refine ⟨⟨mid, hmid, hsub, ?_⟩, ?_⟩
  · rw [docImageAdditions]
    rw [List.mem_flatten]
    exact ⟨insert_image j, List.mem_map_of_mem insert_image hmem, by rw [hmid]; simp⟩
  · rfl

/-- Witness for C4 at an image whose file exists nowhere: the not-found
placeholder is produced and the conversion outcome is unchanged. -/
theorem C4_img_placeholder_witness :
    (∃ mid, insert_image ⟨"x.png", none, none, "d", ⟨[], []⟩, false⟩
        = [ImgOut.txt ("[" ++ mid ++ "]")] ∧
      substrOf (altTextOf ⟨"x.png", none, none, "d", ⟨[], []⟩, false⟩)
        ("[" ++ mid ++ "]") = true ∧
      ImgOut.txt ("[" ++ mid ++ "]") ∈ docImageAdditions
        ⟨"hello", [⟨"x.png", none, none, "d", ⟨[], []⟩, false⟩], false, some 2000⟩) ∧
    convert_outcome
        ⟨"hello", [⟨"x.png", none, none, "d", ⟨[], []⟩, false⟩], false, some 2000⟩
      = convert_outcome ⟨"hello", [], false, some 2000⟩ :=
  C4_img_placeholder ⟨"x.png", none, none, "d", ⟨[], []⟩, false⟩
    ⟨"hello", [⟨"x.png", none, none, "d", ⟨[], []⟩, false⟩], false, some 2000⟩
    (by decide) (by decide) (by decide) (by decide) (Or.inl (by decide))

theorem pLoopStep_foldl (children : List PChild) : ∀ (acc : List ParaItem) (t : String),
    children.foldl pLoopStep (acc, t)
      = (acc ++ (children.map childItems).flatten, children.foldl textBind t) := by
  induction children with
  | nil =>
    intro acc t
    simp
  | cons c rest ih =>
    intro acc t
    rw [List.foldl_cons, List.foldl_cons, pLoopStep, ih]
    simp

theorem textBind_no_string : ∀ (children : List PChild),
    (∀ c ∈ children, ∀ s, c ≠ PChild.text s) →
    ∀ t : String, children.foldl textBind t = t := by
  intro children
  induction children with
  | nil =>
    intro _ t
    rfl
  | cons c rest ih =>
    intro h t
    have hc : textBind t c = t := by
      cases c with
      | img j => rfl
      | bold a => rfl
      | italic a => rfl
      | underline a => rfl
      | link a => rfl
      | text a => exact absurd rfl (h (PChild.text a) (List.mem_cons_self _ _) a)
      | other => rfl
    rw [List.foldl_cons, hc]
    exact ih (fun x hx => h x (List.mem_cons_of_mem c hx)) t

theorem textBind_last_string (s : String) (post : List PChild)
    (h : ∀ c ∈ post, ∀ u, c ≠ PChild.text u) :
    ∀ (t : String) (pre : List PChild),
      (pre ++ PChild.text s :: post).foldl textBind t = trimS s := by
  intro t pre
  rw [List.foldl_append, List.foldl_cons]
  exact textBind_no_string post h (trimS s)

/-- Counterexample to claim C9 as stated: at a paragraph with stripped text
xy and children bold x and the string child y, the else branch reads the
`text` variable rebound at line 323 by the string child, so the final run
holds y, not the paragraph's full stripped text xy. -/
theorem C9_counterexample :
    (pHandler "xy" [PChild.bold "x", PChild.text " y"]).getLast?
      = some (ParaItem.run (plainRun "y")) ∧
    (pHandler "xy" [PChild.bold "x", PChild.text " y"]).getLast?
      ≠ some (ParaItem.run (plainRun "xy")) := by
  decide

/-- Claim C9 (amended): for a p element with non-empty stripped text, the
for/else over its children has no break, so the else branch always runs
and a final plain run is appended unconditionally after any child runs —
but it holds the `text` variable of that moment: the paragraph's full
stripped text when no string child occurred, and otherwise the stripped
text of the last string child, rebound at line 323, duplicating that
child's content. -/
theorem C9_p_forelse (stripped : String) (children : List PChild)
    (h : stripped ≠ "") :
    pHandler stripped children
      = (children.map childItems).flatten
        ++ [ParaItem.run (plainRun (pFinalText stripped children))] ∧
    (pHandler stripped children).getLast?
      = some (ParaItem.run (plainRun (pFinalText stripped children))) ∧
    ((∀ c ∈ children, ∀ s, c ≠ PChild.text s) →
      pFinalText stripped children = stripped) ∧
    (∀ (pre post : List PChild) (s : String),
      children = pre ++ PChild.text s :: post →
      (∀ c ∈ post, ∀ u, c ≠ PChild.text u) →
      pFinalText stripped children = trimS s) := by
  have hb : (stripped == "") = false := by simp [h]
  have hmain : pHandler stripped children
      = (children.map childItems).flatten
        ++ [ParaItem.run (plainRun (pFinalText stripped children))] := by
    rw [pHandler, hb]
    simp only [Bool.false_eq_true, if_false]
    rw [pLoopStep_foldl children [] stripped]
    rw [pFinalText]
    simp
  refine ⟨hmain, ?_, ?_, ?_⟩
  · rw [hmain, List.getLast?_concat]
  · intro hns
    rw [pFinalText]
    exact textBind_no_string children hns stripped
  · intro pre post s hsplit hns
    rw [pFinalText, hsplit]
    exact textBind_last_string s post hns stripped pre

/-- Witness for C9 at a paragraph with a bold child and a string child: the
final run duplicates the string child's stripped text. -/
theorem C9_p_forelse_witness :
    pHandler "xy" [PChild.bold "x", PChild.text " y"]
      = [ParaItem.run ⟨"x", true, false, false, false⟩,
         ParaItem.run (plainRun "y"),
         ParaItem.run (plainRun "y")] := by
  have h := (C9_p_forelse "xy" [PChild.bold "x", PChild.text " y"] (by decide)).1
  rw [h]
  decide

theorem fallbackScan_eq_find (decodes : String → Bool) : ∀ l : List String,
    fallbackScan decodes l = (l.find? decodes).getD "utf-8" := by
  intro l
  induction l with
  | nil => rfl
  | cons e rest ih =>
    rw [fallbackScan]
    by_cases hd : decodes e
    · simp [hd, List.find?]
    · simp only [hd, Bool.false_eq_true, if_false, ih]
      simp [List.find?, hd]

/-- Claim C7: detect_encoding accepts the statistical answer only above the
0.7 threshold, returning the lowercased detected name with gb2312
normalized to gb18030; at or below the threshold it ignores the detector
and returns the first of utf-8, gbk, gb18030, big5 that strictly decodes
the sample, defaulting to utf-8 (and, being a total function whose every
exception path yields utf-8, it never raises). -/
theorem C7_detect_encoding (res : ChardetInput) (decodes : String → Bool) :
    (∀ e, res.encoding = some e → (7 : Rat) / 10 < res.confidence →
      detect_encoding true res decodes
        = (if strLower e == "gb2312" then "gb18030" else strLower e)) ∧
    (¬ ((7 : Rat) / 10 < res.confidence) →
      detect_encoding true res decodes
        = (["utf-8", "gbk", "gb18030", "big5"].find? decodes).getD "utf-8") ∧
    (detect_encoding false res decodes = "utf-8") := by
  refine ⟨?_, ?_, rfl⟩
  · intro e he hconf
    rw [detect_encoding, if_pos rfl, if_pos hconf, he]
  · intro hconf
    rw [detect_encoding, if_pos rfl, if_neg hconf, fallbackScan_eq_find]

/-- Witness for C7 at a detector answer GB2312 with confidence 9/10: the
returned encoding is the superset gb18030. -/
theorem C7_detect_encoding_witness :
    detect_encoding true ⟨some "GB2312", (9 : Rat) / 10⟩ (fun _ => false) = "gb18030" := by
  have h := (C7_detect_encoding ⟨some "GB2312", (9 : Rat) / 10⟩ (fun _ => false)).1
    "GB2312" rfl (by norm_num)
  rw [h]
  decide

theorem firstDecode_eq_none (di : String → Option String) :
    ∀ l : List String, (∀ e ∈ l, di e = none) → firstDecode di l = none := by
  intro l
  induction l with
  | nil => intro _; rfl
  | cons e rest ih =>
    intro h
    rw [firstDecode, h e (List.mem_cons_self e rest)]
    exact ih (fun x hx => h x (List.mem_cons_of_mem e hx))

/-- Claim C6: read_html_file never raises and never fails outright: a
successful strict UTF-8 decode is returned with a leading BOM stripped;
when it and the detected-encoding decode and the whole legacy ladder
fail, the result is the lenient UTF-8 decode of the raw bytes (empty
when even that is unavailable); and a non-decode error on the first open
also yields the empty string rather than an exception. -/
theorem C6_read_html_file (m : ReadModel) :
    (∀ c, m.utf8IoErr = false → m.utf8Result = some c →
      read_html_file m = stripBOM c) ∧
    ((m.utf8IoErr = false ∧ m.utf8Result = none ∧
      m.decodeIgnore (detect_encoding m.detImportOk m.det m.detDecodes) = none ∧
      (∀ e ∈ ["gbk", "gb18030", "big5", "utf-16", "latin-1"], m.decodeIgnore e = none)) →
      read_html_file m = m.finalRead.getD "") ∧
    (m.utf8IoErr = true → read_html_file m = "") := by
  refine ⟨?_, ?_, ?_⟩
  · intro c hio hu
    rw [read_html_file, hio, hu]
    simp
  · rintro ⟨hio, hu, hdet, hladder⟩
    rw [read_html_file, hio, hu]
    simp only [Bool.false_eq_true, if_false]
    rw [hdet, firstDecode_eq_none m.decodeIgnore _ hladder]
    cases m.finalRead with
    | none => rfl
    | some c => rfl
  · intro hio
    rw [read_html_file, hio]
    rfl

/-- Witness for C6 at a file whose strict UTF-8 decode succeeds with a
leading BOM: the returned text is the decode minus the BOM. -/
theorem C6_read_html_file_witness :
    read_html_file ⟨some "\uFEFFhi", false, true, ⟨none, 0⟩,
      fun _ => false, fun _ => none, none⟩ = "hi" := by
  have h := (C6_read_html_file ⟨some "\uFEFFhi", false, true, ⟨none, 0⟩,
    fun _ => false, fun _ => none, none⟩).1 "\uFEFFhi" rfl rfl
  rw [h]
  decide

theorem find_first_characterization {α : Type} (p : α → Bool) :
    ∀ l : List α, (l.find? p = none ∧ ∀ a ∈ l, p a = false)
      ∨ ∃ i, ∃ hi : i < l.length, l.find? p = some (l.get ⟨i, hi⟩) ∧
          p (l.get ⟨i, hi⟩) = true ∧
          ∀ k (hk : k < i), p (l.get ⟨k, Nat.lt_trans hk hi⟩) = false := by
  intro l
  induction l with
  | nil =>
    left
    exact ⟨rfl, by intro a ha; cases ha⟩
  | cons a t ih =>
    by_cases hp : p a
    · right
      refine ⟨0, Nat.succ_pos _, ?_, hp, ?_⟩
      · rw [List.find?_cons_of_pos _ hp]
        rfl
      · intro k hk
        cases hk
    · rcases ih with ⟨hn, hall⟩ | ⟨i, hi, hfind, hpi, hbefore⟩
      · left
        refine ⟨?_, ?_⟩
        · rw [List.find?_cons_of_neg _ hp, hn]
        · intro x hx
          rcases List.mem_cons.mp hx with h | h
          · subst h
            simpa using hp
          · exact hall x h
      · right
        refine ⟨i + 1, Nat.succ_lt_succ hi, ?_, hpi, ?_⟩
        · rw [List.find?_cons_of_neg _ hp, hfind]
          rfl
        · intro k hk
          cases k with
          | zero => simpa using hp
          | succ k2 => exact hbefore k2 (Nat.lt_of_succ_lt_succ hk)

/-- Counterexample to claim C8 as stated: with base name Doc (capital D) and
a sibling directory doc_files, a case-insensitive fuzzy search (the
spec-modelled variant) finds doc_files, but the source lowercases only
the candidate folder name and compares it with the original-case base
name, so it returns none. -/
theorem C8_counterexample :
    find_associated_files_folder "Doc" [⟨"doc_files", true⟩] = none ∧
    find_folder_spec "Doc" [⟨"doc_files", true⟩] = some "doc_files" := by
  decide

/-- Claim C8 (amended): asset-folder resolution first checks the fixed
ordered list of conventional sibling names and returns the first that
exists as a directory; if none exists, it returns the first listing
entry that is a directory whose lowercased name contains the base name —
compared with the base name's original case, so the search is
case-insensitive only in the folder name — and contains file or image;
otherwise none. -/
theorem C8_folder_resolution (htmlName : String) (listing : List DirEntry) :
    (∃ i, ∃ hi : i < (possibleNames htmlName).length,
      find_associated_files_folder htmlName listing
        = some ((possibleNames htmlName).get ⟨i, hi⟩) ∧
      existsDir listing ((possibleNames htmlName).get ⟨i, hi⟩) = true ∧
      ∀ k (hk : k < i),
        existsDir listing ((possibleNames htmlName).get ⟨k, Nat.lt_trans hk hi⟩) = false)
    ∨ ((∀ n ∈ possibleNames htmlName, existsDir listing n = false) ∧
      ((∃ i, ∃ hi : i < listing.length,
        find_associated_files_folder htmlName listing
          = some ((listing.get ⟨i, hi⟩).name) ∧
        fuzzyMatch htmlName (listing.get ⟨i, hi⟩) = true ∧
        ∀ k (hk : k < i),
          fuzzyMatch htmlName (listing.get ⟨k, Nat.lt_trans hk hi⟩) = false)
      ∨ ((∀ e ∈ listing, fuzzyMatch htmlName e = false) ∧
        find_associated_files_folder htmlName listing = none))) := by
  rcases find_first_characterization (existsDir listing) (possibleNames htmlName)
    with ⟨hn1, hall1⟩ | ⟨i, hi, hfind1, hp1, hbefore1⟩
  · right
    refine ⟨hall1, ?_⟩
    rcases find_first_characterization (fuzzyMatch htmlName) listing
      with ⟨hn2, hall2⟩ | ⟨i, hi, hfind2, hp2, hbefore2⟩
    · right
      refine ⟨hall2, ?_⟩
      rw [find_associated_files_folder, hn1, hn2]
      rfl
    · left
      refine ⟨i, hi, ?_, hp2, hbefore2⟩
      rw [find_associated_files_folder, hn1, hfind2]
      rfl
  · left
    refine ⟨i, hi, ?_, hp1, hbefore1⟩
    rw [find_associated_files_folder, hfind1]
